import Mathlib

/-!
Verification of the booking.com scraper repository (main.py, main1.py,
scrape_Countries.py) against its natural-language specification.

The Python sources are shallowly embedded: pure string manipulation
(URL joining, query-string handling, deduplication, the pagination
transition, the fetch-result classification) is translated directly
into executable Lean functions; the BeautifulSoup HTML queries the
code performs (CSS selectors, attribute lookups) are modelled as an
oracle structure `Env`, matching the spec, which treats the page-type
extraction rules as external pure functions of the page body.  Network
fetches are modelled as an oracle `String -> Except String String`
recording, for one run, the body or failure each URL produced.

Modelling notes, stated once here:
* Python string operations are modelled over `List Char`
  (`str.startswith`, the `in` operator, `str.split`).  Percent
  decoding in `urllib.parse.unquote_plus` is modelled byte-for-byte
  for ASCII escapes; multi-byte UTF-8 escapes are out of scope (no
  property below exercises them).  `urllib.parse.parse_qsl` is
  modelled with the modern single separator `&`.
* `urllib.parse.urljoin(BASE, href)` is modelled including CPython's
  scheme passthrough: a reference with a scheme different from the
  base's https (http:, javascript:, mailto:, ...) is returned
  unchanged; https references with an authority are already absolute;
  scheme-relative, root-relative and plain relative references resolve
  against the origin (dot-segment normalisation is not exercised by
  any property below).
* Python `int(...)` is modelled as optional surrounding spaces, an
  optional sign and a digit run (digit-group underscores are not
  modelled; no property below uses them).
* `concurrent.futures` fan-out: each worker is a pure function of its
  own task, so a stage is modelled as `List.map` of the per-task
  function, which is exactly the isolation property the spec claims.
-/

namespace Booking

/-- Does the pattern list occur inside the second list (Python `in`)? -/
def occursIn (p s : List Char) : Bool :=
  match s with
  | [] => p.isEmpty
  | _ :: t => p.isPrefixOf s || occursIn p t

/-- Python `str.startswith`. -/
def strStartsWith (s p : String) : Bool := p.data.isPrefixOf s.data

/-- Python `p in s` substring test. -/
def strContains (s p : String) : Bool := occursIn p.data s.data

/-- Split at the first occurrence of a character: text before it, and
the remainder after it when the character occurs. -/
def splitFirst (c : Char) : List Char → List Char × Option (List Char)
  | [] => ([], none)
  | x :: xs =>
    if x = c then ([], some xs)
    else
      let r := splitFirst c xs
      (x :: r.1, r.2)

/-- Split at the last occurrence of a character, when it occurs. -/
def splitLast (c : Char) (l : List Char) : Option (List Char × List Char) :=
  match splitFirst c l.reverse with
  | (_, none) => none
  | (revAfter, some revBefore) => some (revBefore.reverse, revAfter.reverse)

/-- Split on every occurrence of a character (Python `str.split(c)`). -/
def splitAllAux (c : Char) : List Char → List Char → List (List Char)
  | [], acc => [acc.reverse]
  | x :: xs, acc =>
    if x = c then acc.reverse :: splitAllAux c xs []
    else splitAllAux c xs (x :: acc)

def splitAll (c : Char) (l : List Char) : List (List Char) := splitAllAux c l []

/-- Take characters until one of the stop characters is reached. -/
def takeUntilAny (stops : List Char) : List Char → List Char × List Char
  | [] => ([], [])
  | x :: xs =>
    if x ∈ stops then ([], x :: xs)
    else
      let r := takeUntilAny stops xs
      (x :: r.1, r.2)

def asciiLowerChar (c : Char) : Char :=
  if 'A' ≤ c ∧ c ≤ 'Z' then Char.ofNat (c.toNat + 32) else c

def asciiUpperChar (c : Char) : Char :=
  if 'a' ≤ c ∧ c ≤ 'z' then Char.ofNat (c.toNat - 32) else c

def asciiLower (l : List Char) : List Char := l.map asciiLowerChar

def asciiUpper (l : List Char) : List Char := l.map asciiUpperChar

def digitVal (c : Char) : Option Nat :=
  if '0' ≤ c ∧ c ≤ '9' then some (c.toNat - '0'.toNat) else none

def hexVal (c : Char) : Option Nat :=
  if '0' ≤ c ∧ c ≤ '9' then some (c.toNat - '0'.toNat)
  else if 'a' ≤ c ∧ c ≤ 'f' then some (c.toNat - 'a'.toNat + 10)
  else if 'A' ≤ c ∧ c ≤ 'F' then some (c.toNat - 'A'.toNat + 10)
  else none

/-- Value of a nonempty all-digit run; `none` otherwise. -/
def digitsVal (l : List Char) : Option Nat :=
  match l with
  | [] => none
  | _ =>
    l.foldl (fun acc c =>
      match acc, digitVal c with
      | some n, some d => some (n * 10 + d)
      | _, _ => none) (some 0)

def stripSpaces (l : List Char) : List Char :=
  ((l.dropWhile (· = ' ')).reverse.dropWhile (· = ' ')).reverse

/-- Python `int(s)` on a decimal string: optional surrounding spaces,
optional sign, digit run.  `none` models the ValueError. -/
def pyInt (s : String) : Option Int :=
  match stripSpaces s.data with
  | '-' :: rest => (digitsVal rest).map (fun n => -(n : Int))
  | '+' :: rest => (digitsVal rest).map (fun n => (n : Int))
  | l => (digitsVal l).map (fun n => (n : Int))

/-- Site origin, `BASE` in main.py and `BASE_URL` in scrape_Countries.py. -/
def BASE : String := "https://www.booking.com"

/-- Resolution of a scheme-less reference against the base: an empty
reference yields the base, a scheme-relative reference gains the base
scheme, a root-relative or plain relative reference resolves against
the site origin. -/
def absolutizeRel (href : String) : String :=
  if href = "" then BASE
  else if strStartsWith href "//" then "https:" ++ href
  else if strStartsWith href "/" then BASE ++ href
  else BASE ++ "/" ++ href

/-- Scheme detection of `urllib.parse`: a nonempty run of scheme
characters starting with a letter, before the first colon. -/
def isSchemeChar (c : Char) : Bool :=
  c.isAlphanum || c = '+' || c = '-' || c = '.'

/-- main.py `absolutize(href) = urljoin(BASE, href)`.  CPython returns
the reference unchanged when it carries a URL scheme different from
the base's https (so `http:`, `javascript:`, `mailto:` references pass
through untouched), and an https reference with an authority part is
already absolute; everything else resolves against the site origin
(dot-segment normalisation is not exercised by any property below). -/
def absolutize (href : String) : String :=
  if href = "" then BASE
  else
    match (splitFirst ':' href.data).2 with
    | some post =>
      if (splitFirst ':' href.data).1 ≠ [] ∧
          ((splitFirst ':' href.data).1.headD ' ').isAlpha ∧
          (splitFirst ':' href.data).1.all isSchemeChar then
        if asciiLower (splitFirst ':' href.data).1 = "https".data then
          if "//".data.isPrefixOf post then href else absolutizeRel (⟨post⟩ : String)
        else href
      else absolutizeRel href
    | none => absolutizeRel href

/-! ### urllib.parse: urlparse, urlunparse, parse_qsl, urlencode -/

/-- The six components of `urllib.parse.urlparse`. -/
structure UrlParts where
  scheme : String
  netloc : String
  path : String
  params : String
  query : String
  fragment : String
deriving DecidableEq

/-- Split `;params` off a path: first `;` of the last path segment
(CPython `_splitparams`). -/
def splitParams (pathL : List Char) : List Char × List Char :=
  match splitLast '/' pathL with
  | some (pre, lastSeg) =>
    match splitFirst ';' lastSeg with
    | (a, some b) => (pre ++ '/' :: a, b)
    | (_, none) => (pathL, [])
  | none =>
    match splitFirst ';' pathL with
    | (a, some b) => (a, b)
    | (_, none) => (pathL, [])

/-- `urllib.parse.urlparse`: scheme, then `//netloc`, then fragment at
the first `#`, then query at the first `?`, then path params. -/
def urlparse (url : String) : UrlParts :=
  let l := url.data
  let schemeSplit :=
    match splitFirst ':' l with
    | (pre, some post) =>
      if pre ≠ [] ∧ (pre.headD ' ').isAlpha ∧ pre.all isSchemeChar then
        (asciiLower pre, post)
      else ([], l)
    | (_, none) => ([], l)
  let rest1 := schemeSplit.2
  let netlocSplit :=
    if "//".data.isPrefixOf rest1 then takeUntilAny ['/', '?', '#'] (rest1.drop 2)
    else ([], rest1)
  let rest2 := netlocSplit.2
  let fragSplit :=
    match splitFirst '#' rest2 with
    | (a, some b) => (a, b)
    | (a, none) => (a, [])
  let querySplit :=
    match splitFirst '?' fragSplit.1 with
    | (a, some b) => (a, b)
    | (a, none) => (a, [])
  let pp := splitParams querySplit.1
  { scheme := ⟨schemeSplit.1⟩
    netloc := ⟨netlocSplit.1⟩
    path := ⟨pp.1⟩
    params := ⟨pp.2⟩
    query := ⟨querySplit.2⟩
    fragment := ⟨fragSplit.2⟩ }

/-- `urllib.parse.urlunparse`. -/
def urlunparse (u : UrlParts) : String :=
  let url0 := if u.params = "" then u.path else u.path ++ ";" ++ u.params
  let url1 :=
    if u.netloc ≠ "" ∨ (url0 ≠ "" ∧ strStartsWith url0 "//") then
      let url0' := if url0 ≠ "" ∧ ¬ strStartsWith url0 "/" then "/" ++ url0 else url0
      "//" ++ u.netloc ++ url0'
    else url0
  let url2 := if u.scheme ≠ "" then u.scheme ++ ":" ++ url1 else url1
  let url3 := if u.query ≠ "" then url2 ++ "?" ++ u.query else url2
  if u.fragment ≠ "" then url3 ++ "#" ++ u.fragment else url3

/-- `urllib.parse.unquote_plus` on one character run: `+` becomes a
space, `%XX` hex escapes decode (ASCII model), anything else is kept. -/
def unquotePlusL : List Char → List Char
  | [] => []
  | '+' :: t => ' ' :: unquotePlusL t
  | '%' :: a :: b :: t =>
    match hexVal a, hexVal b with
    | some x, some y => Char.ofNat (16 * x + y) :: unquotePlusL t
    | _, _ => '%' :: unquotePlusL (a :: b :: t)
  | c :: t => c :: unquotePlusL t

/-- `urllib.parse.parse_qsl`: split the query on `&`; keep only
`name=value` pieces with a nonempty value; unquote both sides. -/
def parse_qsl (qs : String) : List (String × String) :=
  (splitAll '&' qs.data).foldr (fun piece acc =>
    if piece = [] then acc
    else
      match splitFirst '=' piece with
      | (_, none) => acc
      | (k, some v) =>
        if v = [] then acc
        else (⟨unquotePlusL k⟩, ⟨unquotePlusL v⟩) :: acc) []

/-- Python `dict` built from key/value pairs: later values win, keys
keep first-insertion order. -/
def dictInsert (d : List (String × String)) (k v : String) : List (String × String) :=
  if d.any (fun p => p.1 == k) then
    d.map (fun p => if p.1 == k then (k, v) else p)
  else d ++ [(k, v)]

def dictOf (l : List (String × String)) : List (String × String) :=
  l.foldl (fun d p => dictInsert d p.1 p.2) []

def dictGet (d : List (String × String)) (k : String) : Option String :=
  (d.find? (fun p => p.1 == k)).map (·.2)

/-- UTF-8 bytes of one character. -/
def utf8Bytes (c : Char) : List Nat :=
  let n := c.toNat
  if n < 0x80 then [n]
  else if n < 0x800 then [0xC0 + n / 64, 0x80 + n % 64]
  else if n < 0x10000 then
    [0xE0 + n / 4096, 0x80 + (n / 64) % 64, 0x80 + n % 64]
  else
    [0xF0 + n / 0x40000, 0x80 + (n / 4096) % 64, 0x80 + (n / 64) % 64, 0x80 + n % 64]

def toHexDigit (n : Nat) : Char :=
  if n < 10 then Char.ofNat ('0'.toNat + n) else Char.ofNat ('A'.toNat + n - 10)

/-- `urllib.parse.quote_plus` on one byte: letters, digits and
`_ . - ~` pass through, a space becomes `+`, the rest percent-encode. -/
def quoteByte (b : Nat) : List Char :=
  let c := Char.ofNat b
  if c.isAlphanum || c = '_' || c = '.' || c = '-' || c = '~' then [c]
  else if b = 32 then ['+']
  else ['%', toHexDigit (b / 16), toHexDigit (b % 16)]

def quotePlus (s : String) : String :=
  ⟨((s.data.map (fun c => (utf8Bytes c).map quoteByte)).flatten).flatten⟩

def joinAmp : List String → String
  | [] => ""
  | [x] => x
  | x :: y :: t => x ++ "&" ++ joinAmp (y :: t)

/-- `urllib.parse.urlencode` over a dict (`quote_via=quote_plus`). -/
def urlencode (d : List (String × String)) : String :=
  joinAmp (d.map (fun p => quotePlus p.1 ++ "=" ++ quotePlus p.2))

/-! ### Data model (main.py dataclasses) and the extraction oracle -/

/-- main.py `Hotel` dataclass. -/
structure Hotel where
  name : String
  url : String
deriving DecidableEq

/-- main.py `Country` dataclass. -/
structure Country where
  name : String
  url : String
  listings : List Hotel
deriving DecidableEq

/-- main.py `Region` dataclass. -/
structure Region where
  name : String
  url : String
  countries : List Country
deriving DecidableEq

/-- One run of the system: the network fetch oracle plus the
BeautifulSoup query results on each page body.  The spec treats these
HTML extraction rules as external pure functions of the page, which is
what the fields model; all downstream logic is embedded from the
source. -/
structure Env where
  /-- Body or failure that `session.get` produced for each URL. -/
  fetch : String → Except String String
  /-- Every `<a href=...>` of the page as (text, raw href), in document
  order: `soup.find_all("a", href=True)`. -/
  anchors : String → List (String × String)
  /-- Anchors matching `a[data-testid="title-link"][href]` as
  (text, raw href). -/
  titleLinks : String → List (String × String)
  /-- Raw href of `<link rel="next">` when that element exists. -/
  relNext : String → Option String
  /-- Raw href of the first match of
  `a[aria-label*="Next"][href], a[rel="next"][href]`. -/
  ariaNext : String → Option String
  /-- Raw href of `<link rel="canonical">` when it exists. -/
  canonicalHref : String → Option String
  /-- Texts of the anchors inside the breadcrumb nav, when a
  breadcrumb container exists. -/
  breadcrumbTexts : String → Option (List String)

/-! ### Fetch layer -/

/-- `requests.Response.raise_for_status`: raises exactly for 4xx/5xx. -/
def raise_for_status (status : Nat) : Except Nat Unit :=
  if 400 ≤ status ∧ status < 600 then .error status else .ok ()

/-- main.py `fetch_html` classification of one HTTP response: on a
non-200 status or a body shorter than 1000 characters it calls
`raise_for_status` and, when that does not raise, falls through to
returning the body. -/
def fetch_html (status : Nat) (body : String) : Except Nat String :=
  if status ≠ 200 ∨ body.length < 1000 then
    match raise_for_status status with
    | .error e => .error e
    | .ok _ => .ok body
  else .ok body

/-- Statuses the manual retry loop in main1.py `fetch` treats as soft
failures. -/
def m1RetrySet : List Nat := [429, 500, 502, 503, 504]

/-- main1.py `fetch` attempt loop (the second definition, line 186):
per attempt, status 200 returns the body; a status in the retry set
records the error and continues; any other 4xx/5xx raises in
`raise_for_status` and is caught by the `except RequestException`
handler, which also continues; other statuses fall through the loop
body.  Returns the result together with the number of requests issued;
the error payload is the status held by `last_exc`, if any. -/
def m1FetchGo (status : Nat → Nat) (body : Nat → String) (attempt : Nat)
    (lastExc : Option Nat) : Nat → Except (Option Nat) String × Nat
  | 0 => (.error lastExc, 0)
  | budget + 1 =>
    let sc := status attempt
    if sc = 200 then (.ok (body attempt), 1)
    else
      let lastExc' :=
        if sc ∈ m1RetrySet then some sc
        else if 400 ≤ sc ∧ sc < 600 then some sc
        else lastExc
      let r := m1FetchGo status body (attempt + 1) lastExc' budget
      (r.1, r.2 + 1)

/-- main1.py `fetch(url, retries)`: `for attempt in range(retries + 1)`,
then `raise RuntimeError(... last_exc)`. -/
def m1Fetch (status : Nat → Nat) (body : Nat → String) (retries : Nat) :
    Except (Option Nat) String × Nat :=
  m1FetchGo status body 0 none (retries + 1)

/-! ### Parsing and pagination (main.py) -/

/-- Seen-set loop of main.py `dedupe_preserve_order`. -/
def dpoGo (seen : List (String × String)) :
    List (String × String) → List (String × String)
  | [] => []
  | k :: t => if k ∈ seen then dpoGo seen t else k :: dpoGo (k :: seen) t

/-- main.py `dedupe_preserve_order`: keep the first occurrence of each
(name, url) tuple. -/
def dedupe_preserve_order (items : List (String × String)) : List (String × String) :=
  dpoGo [] items

/-- Seen-set loop that deduplicates hotels by URL (used at the end of
`parse_hotels_from_search` and of `scrape_country_listings`). -/
def dedupeHotels (seen : List String) : List Hotel → List Hotel
  | [] => []
  | h :: t =>
    if h.url ∈ seen then dedupeHotels seen t
    else h :: dedupeHotels (h.url :: seen) t

/-- main.py `parse_hotels_from_search`: title-link anchors filtered to
nonempty names and absolutized hrefs containing "/hotel/"; when that
yields nothing, generic anchors whose raw href starts with "/hotel/"
and whose text is nonempty; finally dedupe by URL. -/
def parse_hotels_from_search (E : Env) (html : String) : List Hotel :=
  let fromTitle := (E.titleLinks html).filterMap (fun p =>
    let href := absolutize p.2
    if p.1 ≠ "" ∧ href ≠ "" ∧ strContains href "/hotel/" = true then
      some (Hotel.mk p.1 href)
    else none)
  let hotels :=
    if fromTitle = [] then
      (E.anchors html).filterMap (fun p =>
        if strStartsWith p.2 "/hotel/" = true ∧ p.1 ≠ "" then
          some (Hotel.mk p.1 (absolutize p.2))
        else none)
    else fromTitle
  dedupeHotels [] hotels

/-- main.py `find_next_page`: a `rel=next` link with a nonempty href
wins, then the first Next-labelled anchor, then the offset heuristic
on the current URL: with an `offset` query parameter present, add
`int(rows)` (falling back to 25 when `rows` is absent or not a
number); a non-numeric `offset` re-raises ValueError out of both the
`try` and the `except` arithmetic, modelled as `.error`.  With no
offset parameter the transition is terminal. -/
def find_next_page (E : Env) (html currentUrl : String) :
    Except String (Option String) :=
  let linkNext : Option String :=
    match E.relNext html with
    | some h => if h = "" then E.ariaNext html else some h
    | none => E.ariaNext html
  match linkNext with
  | some h => .ok (some (absolutize h))
  | none =>
    let parsed := urlparse currentUrl
    let qs := dictOf (parse_qsl parsed.query)
    match dictGet qs "offset" with
    | none => .ok none
    | some offStr =>
      match pyInt offStr with
      | none => .error "ValueError"
      | some off =>
        let rows : Int :=
          match dictGet qs "rows" with
          | none => 25
          | some r => (pyInt r).getD 25
        .ok (some (urlunparse
          { parsed with query := urlencode (dictInsert qs "offset" (toString (off + rows))) }))

/-- main.py `scrape_country_listings` while-loop.  The fuel is the
number of iterations the guard `pages_done < max_pages` still allows;
each iteration fetches, accumulates the parsed hotels, records the
visited URL, and stops on a falsy or unchanged next URL.  A fetch
failure or a ValueError propagates (the callers catch it). -/
def scrapeGo (E : Env) :
    Nat → String → List Hotel → List String → Except String (List Hotel × List String)
  | 0, _, acc, visited => .ok (acc, visited)
  | fuel + 1, url, acc, visited =>
    if url = "" then .ok (acc, visited)
    else
      match E.fetch url with
      | .error e => .error e
      | .ok html =>
        let acc2 := acc ++ parse_hotels_from_search E html
        let visited2 := visited ++ [url]
        match find_next_page E html url with
        | .error e => .error e
        | .ok none => .ok (acc2, visited2)
        | .ok (some nxt) =>
          if nxt = "" ∨ nxt = url then .ok (acc2, visited2)
          else scrapeGo E fuel nxt acc2 visited2

/-- main.py `scrape_country_listings`: run the pagination loop and
apply the final URL dedupe. -/
def scrape_country_listings (E : Env) (searchUrl : String) (maxPages : Int) :
    Except String (List Hotel) :=
  match scrapeGo E maxPages.toNat searchUrl [] [] with
  | .error e => .error e
  | .ok (acc, _) => .ok (dedupeHotels [] acc)

/-- The URLs the pagination loop of `scrape_country_listings` fetches,
in order. -/
def scrapeVisits (E : Env) (searchUrl : String) (maxPages : Int) :
    Except String (List String) :=
  match scrapeGo E maxPages.toNat searchUrl [] [] with
  | .error e => .error e
  | .ok (_, visited) => .ok visited

/-! ### Country discovery and per-region orchestration (main.py) -/

/-- First value of a partial function along a list (a Python loop that
returns on its first hit). -/
def firstSome {α β : Type} (f : α → Option β) : List α → Option β
  | [] => none
  | x :: t =>
    match f x with
    | some r => some r
    | none => firstSome f t

/-- main.py `find_country_search_url`: an anchor whose href mentions
searchresults with a country dest marker wins; otherwise, with a truthy
fallback name, the first searchresults anchor with an `ss=` marker;
otherwise a synthesized `searchresults.html` query for that name. -/
def find_country_search_url (E : Env) (html : String) (fallbackName : String) :
    Option String :=
  let hrefs := (E.anchors html).map (·.2)
  match hrefs.find? (fun h =>
      strContains h "searchresults" &&
        (strContains h "dest_type=country" || strContains h "dest_id=")) with
  | some h => some (absolutize h)
  | none =>
    if fallbackName ≠ "" then
      match hrefs.find? (fun h => strContains h "searchresults" && strContains h "ss=") with
      | some h => some (absolutize h)
      | none =>
        some (BASE ++ "/searchresults.html?" ++
          urlencode [("ss", fallbackName), ("ssne", fallbackName),
                     ("ssne_untouched", fallbackName), ("lang", "en-us")])
    else none

/-- Anchors matching the selector `a[href^="/country/"]`. -/
def countryAnchors (E : Env) (html : String) : List (String × String) :=
  (E.anchors html).filter (fun p => strStartsWith p.2 "/country/")

def isLowerAlpha (c : Char) : Bool := 'a' ≤ c ∧ c ≤ 'z'

/-- Does the regex `/region/([a-z]{2})/` match at the head of the
list?  Returns the two captured letters. -/
def matchRegionAt (l : List Char) : Option (List Char) :=
  if "/region/".data.isPrefixOf l then
    match l.drop 8 with
    | a :: b :: '/' :: _ =>
      if isLowerAlpha a ∧ isLowerAlpha b then some [a, b] else none
    | _ => none
  else none

/-- `re.search` of `/region/([a-z]{2})/` over a string. -/
def regionCCScan : List Char → Option (List Char)
  | [] => none
  | c :: rest =>
    match matchRegionAt (c :: rest) with
    | some cc => some cc
    | none => regionCCScan rest

/-- main.py `extract_country_from_region_page`: the first
`/country/` anchor with a nonempty name and absolutized href wins;
otherwise the canonical link is searched for a region country code,
named from the last breadcrumb anchor when that text is nonempty and
from the upper-cased code otherwise. -/
def extract_country_from_region_page (E : Env) (html : String) :
    Option (String × String) :=
  match firstSome (fun (p : String × String) =>
      let href := absolutize p.2
      if p.1 ≠ "" ∧ href ≠ "" then some (p.1, href) else none)
    (countryAnchors E html) with
  | some r => some r
  | none =>
    match E.canonicalHref html with
    | some ch =>
      if ch = "" then none
      else
        match regionCCScan ch.data with
        | some cc =>
          let countryUrl := BASE ++ "/country/" ++ (⟨cc⟩ : String) ++ ".html"
          let byCrumb : Option (String × String) :=
            match E.breadcrumbTexts html with
            | some texts =>
              if texts ≠ [] ∧ texts.getLastD "" ≠ "" then
                some (texts.getLastD "", countryUrl)
              else none
            | none => none
          some (byCrumb.getD ((⟨asciiUpper cc⟩ : String), countryUrl))
        | none => none
    | none => none

/-- The candidate accumulation loop of main.py `process_region` before
truncation: the extracted country, then every `/country/` anchor with
a nonempty name whose (name, absolutized href) pair is not yet
present. -/
def rawRegionCandidates (E : Env) (rhtml : String) : List (String × String) :=
  let base :=
    match extract_country_from_region_page E rhtml with
    | some ci => [ci]
    | none => []
  (countryAnchors E rhtml).foldl (fun acc p =>
    let nm := p.1
    let hr := absolutize p.2
    if nm ≠ "" ∧ hr ≠ "" ∧ (nm, hr) ∉ acc then acc ++ [(nm, hr)] else acc) base

/-- main.py `process_region` line 303: dedupe and, when the
max-countries limit is positive, truncate. -/
def regionCandidates (E : Env) (rhtml : String) (maxCountries : Int) :
    List (String × String) :=
  if maxCountries > 0 then
    (dedupe_preserve_order (rawRegionCandidates E rhtml)).take maxCountries.toNat
  else dedupe_preserve_order (rawRegionCandidates E rhtml)

/-- Body of the per-country loop of main.py `process_region`: a fetch
failure appends an empty-listings country; otherwise the search URL is
resolved and the listings scraped, an exception inside the scrape
leaving the listings empty. -/
def processCountry (E : Env) (maxPages : Int) (cand : String × String) : Country :=
  match E.fetch cand.2 with
  | .error _ => ⟨cand.1, cand.2, []⟩
  | .ok chtml =>
    let listings :=
      match find_country_search_url E chtml cand.1 with
      | none => []
      | some su =>
        match scrape_country_listings E su maxPages with
        | .error _ => []
        | .ok l => l
    ⟨cand.1, cand.2, listings⟩

/-- main.py `process_region`: a region fetch failure returns the
region with no countries; otherwise each candidate is processed
independently by the loop body. -/
def process_region (E : Env) (pair : String × String) (maxCountries maxPages : Int) :
    Region :=
  match E.fetch pair.2 with
  | .error _ => ⟨pair.1, pair.2, []⟩
  | .ok rhtml =>
    ⟨pair.1, pair.2, (regionCandidates E rhtml maxCountries).map (processCountry E maxPages)⟩

/-- main.py `main` lines 347-348: regions are truncated only when
`args.max_regions` is truthy and positive. -/
def truncate_region_pairs (maxRegions : Int) (pairs : List (String × String)) :
    List (String × String) :=
  if maxRegions ≠ 0 ∧ maxRegions > 0 then pairs.take maxRegions.toNat else pairs

/-! ### File-system write model (scrape_Countries.py save_countries,
main.py main output write) -/

/-- Primitive file operations a write path performs. -/
inductive FsOp
  | openTrunc (path : String)
  | writeChunk (path : String) (data : String)
  | rename (src dst : String)
deriving DecidableEq

/-- File-system contents: each path maps to its content when the file
exists. -/
def FsState : Type := String → Option String

def applyOp (st : FsState) : FsOp → FsState
  | .openTrunc p => fun q => if q = p then some "" else st q
  | .writeChunk p d => fun q => if q = p then some (((st p).getD "") ++ d) else st q
  | .rename s d => fun q => if q = d then st s else if q = s then none else st q

def runOps (st : FsState) (ops : List FsOp) : FsState := ops.foldl applyOp st

/-- scrape_Countries.py `save_countries`: open and write
`path + ".tmp"`, then `os.replace` it over `path`.  The serialized
document arrives as an arbitrary chunk sequence. -/
def save_countries_ops (path : String) (chunks : List String) : List FsOp :=
  FsOp.openTrunc (path ++ ".tmp") ::
    (chunks.map (FsOp.writeChunk (path ++ ".tmp")) ++ [FsOp.rename (path ++ ".tmp") path])

/-- main.py `main` lines 389-390: `open(args.output, "w")` then
`json.dump` writes straight to the destination path. -/
def main_write_ops (path : String) (chunks : List String) : List FsOp :=
  FsOp.openTrunc path :: chunks.map (FsOp.writeChunk path)

def concatAll : List String → String
  | [] => ""
  | c :: t => c ++ concatAll t

/-- Follows the spec wording of the atomicity guarantee: at every
point of the write sequence the output path holds either its previous
content or the complete new document. -/
def specAtomic (outPath : String) (ops : List FsOp) (st : FsState) (doc : String) : Prop :=
  ∀ pre, pre <+: ops →
    runOps st pre outPath = st outPath ∨ runOps st pre outPath = some doc

/-- Follows the spec wording: deduplication identity of a child node,
the absolutized URL, falling back to the name when the URL is empty. -/
def specCanonicalKey (name url : String) : String :=
  if url = "" then name else url

/-! ### Helper lemmas about the deduplication loops -/

theorem mem_dpoGo_not_seen :
    ∀ (l : List (String × String)) (seen) (x), x ∈ dpoGo seen l → x ∉ seen := by
  intro l
  induction l with
  | nil => intro seen x hx; simp [dpoGo] at hx
  | cons k t ih =>
    intro seen x hx
    by_cases hk : k ∈ seen
    · rw [dpoGo, if_pos hk] at hx
      exact ih seen x hx
    · rw [dpoGo, if_neg hk] at hx
      rcases List.mem_cons.mp hx with h1 | h2
      · subst h1; exact hk
      · intro hxs
        exact ih _ x h2 (List.mem_cons_of_mem _ hxs)

theorem dpoGo_nodup : ∀ (l : List (String × String)) (seen), (dpoGo seen l).Nodup := by
  intro l
  induction l with
  | nil => intro seen; simp [dpoGo]
  | cons k t ih =>
    intro seen
    by_cases hk : k ∈ seen
    · rw [dpoGo, if_pos hk]; exact ih seen
    · rw [dpoGo, if_neg hk]
      refine List.nodup_cons.mpr ⟨?_, ih _⟩
      intro hm
      exact mem_dpoGo_not_seen t _ k hm (List.mem_cons_self _ _)

theorem dedupe_preserve_order_nodup (items : List (String × String)) :
    (dedupe_preserve_order items).Nodup :=
  dpoGo_nodup items []

theorem mem_dedupeHotels_url_not_seen :
    ∀ (l : List Hotel) (seen) (h), h ∈ dedupeHotels seen l → h.url ∉ seen := by
  intro l
  induction l with
  | nil => intro seen h hx; simp [dedupeHotels] at hx
  | cons k t ih =>
    intro seen h hx
    by_cases hk : k.url ∈ seen
    · rw [dedupeHotels, if_pos hk] at hx
      exact ih seen h hx
    · rw [dedupeHotels, if_neg hk] at hx
      rcases List.mem_cons.mp hx with h1 | h2
      · subst h1; exact hk
      · intro hxs
        exact ih _ h h2 (List.mem_cons_of_mem _ hxs)

theorem dedupeHotels_nodup_urls :
    ∀ (l : List Hotel) (seen), ((dedupeHotels seen l).map Hotel.url).Nodup := by
  intro l
  induction l with
  | nil => intro seen; simp [dedupeHotels]
  | cons k t ih =>
    intro seen
    by_cases hk : k.url ∈ seen
    · rw [dedupeHotels, if_pos hk]; exact ih seen
    · rw [dedupeHotels, if_neg hk]
      rw [List.map_cons]
      refine List.nodup_cons.mpr ⟨?_, ih _⟩
      intro hm
      rcases List.mem_map.mp hm with ⟨h, hmem, hurl⟩
      exact mem_dedupeHotels_url_not_seen t _ h hmem (hurl ▸ List.mem_cons_self _ _)

theorem mem_dedupeHotels_sub :
    ∀ (l : List Hotel) (seen) (h), h ∈ dedupeHotels seen l → h ∈ l := by
  intro l
  induction l with
  | nil => intro seen h hx; simp [dedupeHotels] at hx
  | cons k t ih =>
    intro seen h hx
    by_cases hk : k.url ∈ seen
    · rw [dedupeHotels, if_pos hk] at hx
      exact List.mem_cons_of_mem _ (ih seen h hx)
    · rw [dedupeHotels, if_neg hk] at hx
      rcases List.mem_cons.mp hx with h1 | h2
      · subst h1; exact List.mem_cons_self _ _
      · exact List.mem_cons_of_mem _ (ih _ h h2)

/-! ### Claim C10 -/

/-- C10: for every run outcome, `process_region` returns a Region
whose name and url fields equal the input pair; failures only affect
the children. -/
theorem C10_region_identity (E : Env) (pair : String × String) (maxC maxP : Int) :
    (process_region E pair maxC maxP).name = pair.1 ∧
    (process_region E pair maxC maxP).url = pair.2 := by
  unfold process_region
  cases E.fetch pair.2 <;> simp

/-! ### Claim C4 -/

/-- C4: the code bug behind the short-body claim.  An HTTP 200
response whose body is shorter than the 1000-character threshold takes
the suspect branch, but `raise_for_status` does not raise on a 200, so
`fetch_html` returns the short body as a success instead of retrying. -/
theorem C4_short_body_returned_as_success :
    "x".length < 1000 ∧ fetch_html 200 "x" = .ok "x" := by
  constructor
  · decide
  · rfl

/-! ### Claim C5 -/

theorem m1FetchGo_const404 (body : Nat → String) :
    ∀ (budget attempt : Nat) (lastExc : Option Nat),
      m1FetchGo (fun _ => 404) body attempt lastExc budget
        = (.error (if budget = 0 then lastExc else some 404), budget) := by
  intro budget
  induction budget with
  | zero => intro attempt lastExc; simp [m1FetchGo]
  | succ b ih =>
    intro attempt lastExc
    rw [m1FetchGo]
    simp only [m1RetrySet]
    norm_num
    rw [ih]
    cases b <;> simp

/-- C5 counterexample: in main1.py `fetch`, a URL answering 404 on
every attempt is requested `retries + 1 = 3` times (the HTTPError
raised by `raise_for_status` is caught by the generic
RequestException handler, which continues the loop) and the final
failure is the generic exhausted-retries RuntimeError, not an
immediate single-request not-found failure. -/
theorem C5_counterexample_404_retried :
    m1Fetch (fun _ => 404) (fun _ => "") 2 = (.error (some 404), 3) ∧ (3 : Nat) ≠ 1 := by
  constructor
  · rfl
  · decide

/-- C5 amended: main.py `fetch_html` does fail immediately on a 404
response (one logical request, the HTTPError of `raise_for_status`),
but main1.py `fetch` issues `retries + 1` requests against a URL that
keeps answering 404 and then fails with the generic RuntimeError
carrying the last HTTPError. -/
theorem C5_amended_404_behavior (t : String) (body : Nat → String) (r : Nat) :
    fetch_html 404 t = .error 404 ∧
    m1Fetch (fun _ => 404) body r = (.error (some 404), r + 1) := by
  constructor
  · unfold fetch_html raise_for_status
    rw [if_pos (Or.inl (by decide))]
    rw [if_pos (by constructor <;> decide)]
  · unfold m1Fetch
    rw [m1FetchGo_const404]
    simp

/-! ### Claim C2 -/

/-- C2: a failed region fetch yields that region with an empty
children list instead of raising; on a successful region fetch the
produced countries are the independent per-candidate map of the loop
body, so one task's outcome cannot affect a sibling; and a failed
country fetch yields that country with empty listings. -/
theorem C2_failure_isolation (E : Env) (pair : String × String) (maxC maxP : Int) :
    (∀ e, E.fetch pair.2 = .error e →
      process_region E pair maxC maxP = ⟨pair.1, pair.2, []⟩) ∧
    (∀ rhtml, E.fetch pair.2 = .ok rhtml →
      (process_region E pair maxC maxP).countries
        = (regionCandidates E rhtml maxC).map (processCountry E maxP)) ∧
    (∀ nm curl e, E.fetch curl = .error e →
      processCountry E maxP (nm, curl) = ⟨nm, curl, []⟩) := by
  refine ⟨?_, ?_, ?_⟩
  · intro e he
    unfold process_region
    rw [he]
  · intro rhtml hr
    unfold process_region
    rw [hr]
  · intro nm curl e he
    unfold processCountry
    rw [he]

/-- One run with three country candidates under one region, of which
the middle country URL fails to fetch. -/
def envC2 : Env where
  fetch := fun u =>
    if u = BASE ++ "/r" then .ok "RH"
    else if u = BASE ++ "/country/a.html" then .ok "CA"
    else if u = BASE ++ "/country/b.html" then .error "boom"
    else if u = BASE ++ "/country/c.html" then .ok "CC"
    else if u = BASE ++ "/searchresults.html?dest_id=1&ss=A" then .ok "SA"
    else if u = BASE ++ "/searchresults.html?dest_id=2&ss=C" then .ok "SC"
    else .error "404"
  anchors := fun h =>
    if h = "RH" then
      [("A", "/country/a.html"), ("B", "/country/b.html"), ("C", "/country/c.html")]
    else if h = "CA" then [("search", "/searchresults.html?dest_id=1&ss=A")]
    else if h = "CC" then [("search", "/searchresults.html?dest_id=2&ss=C")]
    else []
  titleLinks := fun h =>
    if h = "SA" then [("Hotel A", "/hotel/a.html")]
    else if h = "SC" then [("Hotel C", "/hotel/c.html")]
    else []
  relNext := fun _ => none
  ariaNext := fun _ => none
  canonicalHref := fun _ => none
  breadcrumbTexts := fun _ => none

/-- C2 witness: with three country tasks of which exactly the middle
one fails, the run produces two fully populated branches plus one
empty branch, and the per-candidate map shape of the theorem holds at
this input. -/
theorem C2_witness :
    envC2.fetch (BASE ++ "/r") = .ok "RH" ∧
    (process_region envC2 ("R", BASE ++ "/r") 0 1).countries
      = (regionCandidates envC2 "RH" 0).map (processCountry envC2 1) ∧
    (process_region envC2 ("R", BASE ++ "/r") 0 1).countries
      = [⟨"A", BASE ++ "/country/a.html", [⟨"Hotel A", BASE ++ "/hotel/a.html"⟩]⟩,
         ⟨"B", BASE ++ "/country/b.html", []⟩,
         ⟨"C", BASE ++ "/country/c.html", [⟨"Hotel C", BASE ++ "/hotel/c.html"⟩]⟩] :=
  ⟨rfl, (C2_failure_isolation envC2 ("R", BASE ++ "/r") 0 1).2.1 "RH" rfl, by decide⟩

/-! ### Claim C8 -/

/-- A run whose search URL has two listing pages available. -/
def envC8 : Env where
  fetch := fun u =>
    if u = BASE ++ "/s" then .ok "P1"
    else if u = BASE ++ "/s2" then .ok "P2"
    else .error "404"
  anchors := fun h =>
    if h = "P1" then [("H1", "/hotel/h1.html")]
    else if h = "P2" then [("H2", "/hotel/h2.html")]
    else []
  titleLinks := fun _ => []
  relNext := fun h => if h = "P1" then some "/s2" else none
  ariaNext := fun _ => none
  canonicalHref := fun _ => none
  breadcrumbTexts := fun _ => none

/-- C8 counterexample: with max-pages 0 the pagination loop guard
`pages_done < max_pages` is false immediately, so zero pages are
processed and no listings are returned, even though the same run with
max-pages 5 shows two pages were available.  0 is therefore not
unlimited for max-pages. -/
theorem C8_counterexample_maxpages_zero :
    scrapeVisits envC8 (BASE ++ "/s") 0 = .ok [] ∧
    scrape_country_listings envC8 (BASE ++ "/s") 0 = .ok [] ∧
    scrapeVisits envC8 (BASE ++ "/s") 5 = .ok [BASE ++ "/s", BASE ++ "/s2"] ∧
    scrape_country_listings envC8 (BASE ++ "/s") 5
      = .ok [⟨"H1", BASE ++ "/hotel/h1.html"⟩, ⟨"H2", BASE ++ "/hotel/h2.html"⟩] :=
  ⟨rfl, rfl, rfl, rfl⟩

/-- C8 amended: 0 means unlimited for max-regions (no truncation of
the region list) and for max-countries (no truncation of the
candidate list), but max-pages 0 makes the pagination loop process no
page at all: it fetches nothing and returns no listings. -/
theorem C8_amended_zero_semantics (pairs : List (String × String)) (E : Env)
    (rhtml u : String) :
    truncate_region_pairs 0 pairs = pairs ∧
    regionCandidates E rhtml 0 = dedupe_preserve_order (rawRegionCandidates E rhtml) ∧
    scrape_country_listings E u 0 = .ok [] ∧
    scrapeVisits E u 0 = .ok [] := by
  refine ⟨?_, ?_, ?_, ?_⟩
  · simp [truncate_region_pairs]
  · simp [regionCandidates]
  · simp [scrape_country_listings, scrapeGo, dedupeHotels]
  · simp [scrapeVisits, scrapeGo]

/-! ### Claim C3 -/

/-- Shape of the URLs visited by the pagination loop: an extension of
the incoming accumulator by at most `fuel` URLs, consecutive visited
URLs always differ (the `next_url == url` guard), and the first new
URL is the entry URL. -/
theorem scrapeGo_visits_spec (E : Env) :
    ∀ (fuel : Nat) (url : String) (acc : List Hotel) (visited : List String)
      (res : List Hotel × List String),
      scrapeGo E fuel url acc visited = .ok res →
      ∃ w, res.2 = visited ++ w ∧ w.length ≤ fuel ∧
        List.Chain' (fun a b => a ≠ b) w ∧ (w = [] ∨ w.head? = some url) := by
  intro fuel
  induction fuel with
  | zero =>
    intro url acc visited res h
    rw [scrapeGo] at h
    injection h with h
    subst h
    exact ⟨[], by simp, by simp, by simp, Or.inl rfl⟩
  | succ f ih =>
    intro url acc visited res h
    rw [scrapeGo] at h
    by_cases hu : url = ""
    · rw [if_pos hu] at h
      injection h with h
      subst h
      exact ⟨[], by simp, by simp, by simp, Or.inl rfl⟩
    · rw [if_neg hu] at h
      cases hf : E.fetch url with
      | error e => simp [hf] at h
      | ok html =>
        simp only [hf] at h
        cases hn : find_next_page E html url with
        | error e => simp [hn] at h
        | ok onxt =>
          simp only [hn] at h
          cases onxt with
          | none =>
            injection h with h
            subst h
            exact ⟨[url], by simp, by simp, by simp, Or.inr rfl⟩
          | some nxt =>
            have h2 : (if nxt = "" ∨ nxt = url then
                  Except.ok (acc ++ parse_hotels_from_search E html, visited ++ [url])
                else scrapeGo E f nxt (acc ++ parse_hotels_from_search E html)
                  (visited ++ [url])) = Except.ok res := h
            by_cases hstop : nxt = "" ∨ nxt = url
            · rw [if_pos hstop] at h2
              injection h2 with h2
              subst h2
              exact ⟨[url], by simp, by simp, by simp, Or.inr rfl⟩
            · rw [if_neg hstop] at h2
              obtain ⟨w, hw, hlen, hchain, hhead⟩ := ih nxt _ _ _ h2
              refine ⟨url :: w, ?_, ?_, ?_, Or.inr rfl⟩
              · rw [hw]; simp
              · simpa using Nat.succ_le_succ hlen
              · cases w with
                | nil => simp
                | cons x t =>
                  rcases hhead with h1 | h2
                  · cases h1
                  · have hx : x = nxt := by
                      simpa using h2
                    refine List.chain'_cons.mpr ⟨?_, hchain⟩
                    rw [hx]
                    intro hcon
                    exact hstop (Or.inr hcon.symm)

/-- A run whose pages form a two-cycle: page A links to page B as
next, and page B links back to page A. -/
def envC3 : Env where
  fetch := fun u =>
    if u = BASE ++ "/a" then .ok "PA"
    else if u = BASE ++ "/b" then .ok "PB"
    else .error "404"
  anchors := fun _ => []
  titleLinks := fun _ => []
  relNext := fun h =>
    if h = "PA" then some "/b" else if h = "PB" then some "/a" else none
  ariaNext := fun _ => none
  canonicalHref := fun _ => none
  breadcrumbTexts := fun _ => none

/-- C3 counterexample: the loop guard only compares the computed next
URL with the current one, so a two-page cycle makes the same cursor
chain fetch page A twice: the claimed never-revisit property fails. -/
theorem C3_counterexample_revisit :
    scrapeVisits envC3 (BASE ++ "/a") 3
      = .ok [BASE ++ "/a", BASE ++ "/b", BASE ++ "/a"] ∧
    ¬ List.Nodup [BASE ++ "/a", BASE ++ "/b", BASE ++ "/a"] := by
  exact ⟨rfl, by decide⟩

/-- C3 amended: the pagination loop is finite and bounded (it visits
at most max-pages pages) and never repeats the immediately preceding
URL, but URLs visited earlier in the same chain can be revisited. -/
theorem C3_amended_bounded_no_immediate_repeat (E : Env) (u : String) (maxP : Int)
    (v : List String) (h : scrapeVisits E u maxP = .ok v) :
    v.length ≤ maxP.toNat ∧ List.Chain' (fun a b => a ≠ b) v := by
  unfold scrapeVisits at h
  cases hg : scrapeGo E maxP.toNat u [] [] with
  | error e => rw [hg] at h; cases h
  | ok res =>
    rw [hg] at h
    injection h with h
    subst h
    obtain ⟨w, hw, hlen, hchain, _⟩ := scrapeGo_visits_spec E _ _ _ _ _ hg
    rw [hw]
    simpa using ⟨hlen, hchain⟩

/-- C3 witness: the amended bound and no-immediate-repeat property at
a concrete two-page run. -/
theorem C3_witness_bounded :
    scrapeVisits envC3 (BASE ++ "/a") 2 = .ok [BASE ++ "/a", BASE ++ "/b"] ∧
    ([BASE ++ "/a", BASE ++ "/b"].length ≤ (2 : Int).toNat ∧
      List.Chain' (fun a b => a ≠ b) [BASE ++ "/a", BASE ++ "/b"]) :=
  ⟨rfl, C3_amended_bounded_no_immediate_repeat envC3 (BASE ++ "/a") 2
    [BASE ++ "/a", BASE ++ "/b"] rfl⟩

/-! ### Claim C1 -/

theorem processCountry_name_url (E : Env) (maxP : Int) (cand : String × String) :
    (processCountry E maxP cand).name = cand.1 ∧
    (processCountry E maxP cand).url = cand.2 := by
  unfold processCountry
  cases E.fetch cand.2 <;> simp

theorem regionCandidates_nodup (E : Env) (rhtml : String) (maxC : Int) :
    (regionCandidates E rhtml maxC).Nodup := by
  unfold regionCandidates
  split
  · exact List.Nodup.sublist (List.take_sublist _ _) (dedupe_preserve_order_nodup _)
  · exact dedupe_preserve_order_nodup _

theorem scrape_listings_nodup (E : Env) (su : String) (maxP : Int) (l : List Hotel)
    (h : scrape_country_listings E su maxP = .ok l) : (l.map Hotel.url).Nodup := by
  unfold scrape_country_listings at h
  cases hg : scrapeGo E maxP.toNat su [] [] with
  | error e => rw [hg] at h; cases h
  | ok res =>
    obtain ⟨acc, vis⟩ := res
    rw [hg] at h
    injection h with h
    subst h
    exact dedupeHotels_nodup_urls acc []

theorem processCountry_listings_nodup (E : Env) (maxP : Int) (cand : String × String) :
    ((processCountry E maxP cand).listings.map Hotel.url).Nodup := by
  unfold processCountry
  cases hf : E.fetch cand.2 with
  | error e => simp
  | ok chtml =>
    cases hs : find_country_search_url E chtml cand.1 with
    | none => simp [hs]
    | some su =>
      cases hl : scrape_country_listings E su maxP with
      | error e => simp [hs, hl]
      | ok l => simp [hs, hl, scrape_listings_nodup E su maxP l hl]

/-- C1 amended: the children sets are deduplicated, but at the two
levels by two different keys.  The countries under a region are
deduplicated by the full (name, url) pair, and the listings under a
country are deduplicated by URL, the canonical key. -/
theorem C1_amended_children_dedup (E : Env) (pair : String × String) (maxC maxP : Int) :
    ((process_region E pair maxC maxP).countries.map (fun c => (c.name, c.url))).Nodup ∧
    ∀ c ∈ (process_region E pair maxC maxP).countries,
      (c.listings.map Hotel.url).Nodup := by
  constructor
  · unfold process_region
    cases E.fetch pair.2 with
    | error e => simp
    | ok rhtml =>
      simp only
      rw [List.map_map]
      have hmap : (regionCandidates E rhtml maxC).map
            ((fun c => (c.name, c.url)) ∘ processCountry E maxP)
          = (regionCandidates E rhtml maxC).map id := by
        refine List.map_congr_left ?_
        intro cand _
        show ((processCountry E maxP cand).name, (processCountry E maxP cand).url) = cand
        rw [(processCountry_name_url E maxP cand).1, (processCountry_name_url E maxP cand).2]
      rw [hmap, List.map_id]
      exact regionCandidates_nodup E rhtml maxC
  · intro c hc
    unfold process_region at hc
    cases hf : E.fetch pair.2 with
    | error e => rw [hf] at hc; simp at hc
    | ok rhtml =>
      rw [hf] at hc
      simp only at hc
      rcases List.mem_map.mp hc with ⟨cand, _, hcand⟩
      rw [← hcand]
      exact processCountry_listings_nodup E maxP cand

/-- One run whose region page carries two country anchors with the
same href but different anchor texts. -/
def envC1 : Env where
  fetch := fun u => if u = BASE ++ "/r1" then .ok "RHTML" else .error "boom"
  anchors := fun h =>
    if h = "RHTML" then
      [("Alpha", "/country/nl.html"), ("Beta", "/country/nl.html")]
    else []
  titleLinks := fun _ => []
  relNext := fun _ => none
  ariaNext := fun _ => none
  canonicalHref := fun _ => none
  breadcrumbTexts := fun _ => none

/-- C1 counterexample: the candidate loop and `dedupe_preserve_order`
deduplicate by the (name, url) tuple, so two country anchors sharing
one URL under different names both survive, and the number of children
exceeds the number of distinct canonical keys. -/
theorem C1_counterexample_same_key_twice :
    ¬ ((process_region envC1 ("R", BASE ++ "/r1") 0 0).countries.length
        = ((process_region envC1 ("R", BASE ++ "/r1") 0 0).countries.map
            (fun c => specCanonicalKey c.name c.url)).dedup.length) := by
  decide

/-- C1 witness: the amended no-duplicate property evaluated at a
concrete member of a concrete run. -/
theorem C1_witness_nodup :
    (⟨"Alpha", BASE ++ "/country/nl.html", []⟩ : Country)
        ∈ (process_region envC1 ("R", BASE ++ "/r1") 0 0).countries ∧
    ((([] : List Hotel)).map Hotel.url).Nodup :=
  ⟨by decide, (C1_amended_children_dedup envC1 ("R", BASE ++ "/r1") 0 0).2
      ⟨"Alpha", BASE ++ "/country/nl.html", []⟩ (by decide)⟩

/-! ### Claim C9 -/

theorem strStartsWith_of_data_pre (s p : String) (h : p.data <+: s.data) :
    strStartsWith s p = true :=
  List.isPrefixOf_iff_prefix.mpr h

theorem prefix_data_append (a b : String) : a.data <+: (a ++ b).data := by
  rw [String.data_append]
  exact ⟨b.data, rfl⟩

theorem occursIn_self_append (p t2 : List Char) : occursIn p (p ++ t2) = true := by
  cases hpt : p ++ t2 with
  | nil =>
    have hp : p = [] := by
      cases p
      · rfl
      · simp at hpt
    rw [hp]
    rfl
  | cons c r =>
    rw [occursIn, ← hpt]
    have : p.isPrefixOf (p ++ t2) = true :=
      List.isPrefixOf_iff_prefix.mpr ⟨t2, rfl⟩
    rw [this]
    rfl

theorem occursIn_append (p t1 t2 : List Char) : occursIn p (t1 ++ (p ++ t2)) = true := by
  induction t1 with
  | nil => simpa using occursIn_self_append p t2
  | cons c r ih =>
    rw [List.cons_append, occursIn, ih]
    simp

theorem absolutizeRel_startsWith_http (s : String) :
    strStartsWith (absolutizeRel s) "http" = true := by
  unfold absolutizeRel
  split
  · decide
  split
  · exact strStartsWith_of_data_pre _ _
      (List.IsPrefix.trans (List.isPrefixOf_iff_prefix.mp (by decide))
        (prefix_data_append "https:" s))
  split
  · exact strStartsWith_of_data_pre _ _
      (List.IsPrefix.trans (List.isPrefixOf_iff_prefix.mp (by decide))
        (prefix_data_append BASE s))
  · exact strStartsWith_of_data_pre _ _
      (List.IsPrefix.trans (List.isPrefixOf_iff_prefix.mp (by decide))
        (prefix_data_append (BASE ++ "/") s))

/-- urljoin either resolves the reference to an http-rooted URL or,
for a reference carrying its own scheme, passes it through unchanged. -/
theorem absolutize_http_or_self (href : String) :
    strStartsWith (absolutize href) "http" = true ∨ absolutize href = href := by
  unfold absolutize
  split
  · exact Or.inl (by decide)
  · split
    · split
      · split
        · split
          · exact Or.inr rfl
          · exact Or.inl (absolutizeRel_startsWith_http _)
        · exact Or.inr rfl
      · exact Or.inl (absolutizeRel_startsWith_http _)
    · exact Or.inl (absolutizeRel_startsWith_http _)

/-- A reference starting with a slash carries no scheme, so urljoin
resolves it against the base. -/
theorem absolutize_slash_eq_rel (href : String) (l : List Char)
    (hdata : href.data = '/' :: l) : absolutize href = absolutizeRel href := by
  have hne : ¬ href = "" := by
    intro he
    have h0 := congrArg String.data he
    rw [hdata] at h0
    exact List.noConfusion (h0.trans (rfl : String.data "" = []))
  have hpre : (splitFirst ':' href.data).1 = '/' :: (splitFirst ':' l).1 := by
    rw [hdata]; rfl
  have hsnd : (splitFirst ':' href.data).2 = (splitFirst ':' l).2 := by
    rw [hdata]; rfl
  unfold absolutize
  rw [if_neg hne, hsnd]
  cases h2 : (splitFirst ':' l).2 with
  | none => rfl
  | some post =>
    rw [hpre]
    refine if_neg ?_
    intro hcond
    have h3 : (('/' :: (splitFirst ':' l).1).headD ' ').isAlpha = true := hcond.2.1
    rw [show ('/' :: (splitFirst ':' l).1).headD ' ' = '/' from rfl] at h3
    exact absurd h3 (by decide)

theorem absolutize_hotel_rel (href : String) (h : strStartsWith href "/hotel/" = true) :
    absolutize href = BASE ++ href := by
  obtain ⟨t, ht⟩ := List.isPrefixOf_iff_prefix.mp h
  have hdata : href.data = '/' :: 'h' :: 'o' :: 't' :: 'e' :: 'l' :: '/' :: t := by
    rw [← ht]; rfl
  have c1 : ¬ href = "" := by
    intro he
    have h0 := congrArg String.data he
    rw [hdata] at h0
    exact List.noConfusion (h0.trans (rfl : String.data "" = []))
  have c3 : strStartsWith href "//" = false := by
    unfold strStartsWith; rw [hdata]; rfl
  have c4 : strStartsWith href "/" = true := by
    unfold strStartsWith; rw [hdata]; rfl
  rw [absolutize_slash_eq_rel href _ hdata]
  unfold absolutizeRel
  rw [if_neg c1, if_neg (by simp [c3]), if_pos c4]

theorem strContains_base_hotel (href : String) (h : strStartsWith href "/hotel/" = true) :
    strContains (BASE ++ href) "/hotel/" = true := by
  obtain ⟨t, ht⟩ := List.isPrefixOf_iff_prefix.mp h
  have hdata : href.data = '/' :: 'h' :: 'o' :: 't' :: 'e' :: 'l' :: '/' :: t := by
    rw [← ht]; rfl
  unfold strContains
  rw [String.data_append, hdata]
  exact occursIn_append "/hotel/".data BASE.data t

/-- A single listing page whose only title-link card carries a
foreign-scheme href that mentions "/hotel/". -/
def envC9x : Env where
  fetch := fun _ => .error "offline"
  anchors := fun _ => []
  titleLinks := fun h => if h = "H" then [("Click", "javascript:void(/hotel/x)")] else []
  relNext := fun _ => none
  ariaNext := fun _ => none
  canonicalHref := fun _ => none
  breadcrumbTexts := fun _ => none

/-- C9 counterexample: a title-link href with a foreign scheme passes
through urljoin unchanged (CPython returns a reference whose scheme
differs from the base's untouched), still contains "/hotel/", and so
survives the title-link filter: the parser returns a record whose URL
is neither http-rooted nor resolved against the site origin, refuting
the claim that every record has an absolute URL. -/
theorem C9_counterexample_foreign_scheme :
    (⟨"Click", "javascript:void(/hotel/x)"⟩ : Hotel)
        ∈ parse_hotels_from_search envC9x "H" ∧
    strStartsWith "javascript:void(/hotel/x)" "http" = false ∧
    strStartsWith "javascript:void(/hotel/x)" BASE = false := by
  refine ⟨by decide, by decide, by decide⟩

/-- C9 amended: every Hotel record returned by the search-results
parser has a nonempty name, a URL containing "/hotel/", and no two
records share a URL; each URL is either http-rooted or a title-link
href passed through unchanged because it already carried its own URL
scheme. -/
theorem C9_amended_hotels_wellformed (E : Env) (html : String) :
    (∀ h ∈ parse_hotels_from_search E html,
        h.name ≠ "" ∧ strContains h.url "/hotel/" = true ∧
          (strStartsWith h.url "http" = true ∨
            h.url ∈ (E.titleLinks html).map Prod.snd)) ∧
    ((parse_hotels_from_search E html).map Hotel.url).Nodup := by
  constructor
  · intro h hmem
    simp only [parse_hotels_from_search] at hmem
    have hmem2 := mem_dedupeHotels_sub _ _ _ hmem
    split at hmem2
    · rcases List.mem_filterMap.mp hmem2 with ⟨p, _, hf⟩
      split at hf
      · next hcond =>
        injection hf with hf
        subst hf
        refine ⟨hcond.2, ?_, Or.inl ?_⟩
        · rw [absolutize_hotel_rel p.2 hcond.1]
          exact strContains_base_hotel p.2 hcond.1
        · rw [absolutize_hotel_rel p.2 hcond.1]
          exact strStartsWith_of_data_pre _ _
            (List.IsPrefix.trans (List.isPrefixOf_iff_prefix.mp (by decide))
              (prefix_data_append BASE p.2))
      · cases hf
    · rcases List.mem_filterMap.mp hmem2 with ⟨p, hp, hf⟩
      split at hf
      · next hcond =>
        injection hf with hf
        subst hf
        refine ⟨hcond.1, hcond.2.2, ?_⟩
        rcases absolutize_http_or_self p.2 with hh | hh
        · exact Or.inl hh
        · exact Or.inr (by rw [hh]; exact List.mem_map.mpr ⟨p, hp, rfl⟩)
      · cases hf
  · simp only [parse_hotels_from_search]
    exact dedupeHotels_nodup_urls _ _

/-- A single listing page with one title-link hotel card. -/
def envC9 : Env where
  fetch := fun _ => .error "offline"
  anchors := fun _ => []
  titleLinks := fun h => if h = "H" then [("Hotel N", "/hotel/n.html")] else []
  relNext := fun _ => none
  ariaNext := fun _ => none
  canonicalHref := fun _ => none
  breadcrumbTexts := fun _ => none

/-- C9 witness: the amended well-formedness property evaluated at a
concrete parsed record. -/
theorem C9_witness_concrete :
    (⟨"Hotel N", BASE ++ "/hotel/n.html"⟩ : Hotel) ∈ parse_hotels_from_search envC9 "H" ∧
    (("Hotel N" : String) ≠ "" ∧
      strContains (BASE ++ "/hotel/n.html") "/hotel/" = true ∧
      (strStartsWith (BASE ++ "/hotel/n.html") "http" = true ∨
        BASE ++ "/hotel/n.html" ∈ (envC9.titleLinks "H").map Prod.snd)) :=
  ⟨by decide, (C9_amended_hotels_wellformed envC9 "H").1
    ⟨"Hotel N", BASE ++ "/hotel/n.html"⟩ (by decide)⟩

/-! ### Claim C7 -/

/-- Query dictionary of a URL, as `find_next_page` builds it:
`dict(parse_qsl(urlparse(url).query))`. -/
def queryDict (url : String) : List (String × String) :=
  dictOf (parse_qsl (urlparse url).query)

/-- C7: with no explicit next-page link on the page, the pagination
transition rewrites only the query of the current URL, setting the
offset to the old offset plus the rows value (25 when the rows
parameter is absent), and is terminal when no offset parameter
exists. -/
theorem C7_offset_transition (E : Env) (html url : String)
    (hrel : E.relNext html = none) (haria : E.ariaNext html = none) :
    (dictGet (queryDict url) "offset" = none →
      find_next_page E html url = .ok none) ∧
    (∀ offStr off, dictGet (queryDict url) "offset" = some offStr →
      pyInt offStr = some off →
      (dictGet (queryDict url) "rows" = none →
        find_next_page E html url = .ok (some (urlunparse
          { urlparse url with
            query := urlencode (dictInsert (queryDict url) "offset"
              (toString (off + 25))) }))) ∧
      (∀ rowsStr rows, dictGet (queryDict url) "rows" = some rowsStr →
        pyInt rowsStr = some rows →
        find_next_page E html url = .ok (some (urlunparse
          { urlparse url with
            query := urlencode (dictInsert (queryDict url) "offset"
              (toString (off + rows))) })))) := by
  constructor
  · intro h0
    simp only [queryDict] at h0
    simp only [find_next_page, hrel, haria, h0]
  · intro offStr off h1 h2
    simp only [queryDict] at h1
    constructor
    · intro h3
      simp only [queryDict] at h3
      simp only [find_next_page, queryDict, hrel, haria, h1, h2, h3]
    · intro rowsStr rows h4 h5
      simp only [queryDict] at h4
      simp only [find_next_page, queryDict, hrel, haria, h1, h2, h4, h5, Option.getD_some]

/-- A run with no next-page links on any page. -/
def envC7 : Env where
  fetch := fun _ => .error "offline"
  anchors := fun _ => []
  titleLinks := fun _ => []
  relNext := fun _ => none
  ariaNext := fun _ => none
  canonicalHref := fun _ => none
  breadcrumbTexts := fun _ => none

/-- C7 witness: the offset transition evaluated on a concrete search
URL, both through the theorem and down to the literal result URL. -/
theorem C7_witness_concrete :
    find_next_page envC7 "H"
        "https://www.booking.com/searchresults.html?ss=NL&offset=25&rows=25"
      = .ok (some (urlunparse
          { urlparse "https://www.booking.com/searchresults.html?ss=NL&offset=25&rows=25" with
            query := urlencode (dictInsert
              (queryDict "https://www.booking.com/searchresults.html?ss=NL&offset=25&rows=25")
              "offset" (toString ((25 : Int) + 25))) })) ∧
    find_next_page envC7 "H"
        "https://www.booking.com/searchresults.html?ss=NL&offset=25&rows=25"
      = .ok (some "https://www.booking.com/searchresults.html?ss=NL&offset=50&rows=25") :=
  ⟨(((C7_offset_transition envC7 "H"
      "https://www.booking.com/searchresults.html?ss=NL&offset=25&rows=25"
      rfl rfl).2 "25" 25 rfl rfl).2 "25" 25 rfl rfl), rfl⟩

/-! ### Claim C6 -/

theorem tmp_ne_path (path : String) : path ++ ".tmp" ≠ path := by
  intro h
  have h1 := congrArg String.length h
  rw [String.length_append] at h1
  have h4 : (".tmp" : String).length = 4 := rfl
  rw [h4] at h1
  omega

/-- Operations that never touch a path leave its content unchanged. -/
theorem runOps_untouched :
    ∀ (ops : List FsOp) (st : FsState) (q : String),
      (∀ op ∈ ops, match op with
        | .openTrunc p => p ≠ q
        | .writeChunk p _ => p ≠ q
        | .rename s d => s ≠ q ∧ d ≠ q) →
      runOps st ops q = st q := by
  intro ops
  induction ops with
  | nil => intro st q _; rfl
  | cons op t ih =>
    intro st q hall
    have hop := hall op (List.mem_cons_self _ _)
    have ht : ∀ o ∈ t, (match o with
        | FsOp.openTrunc p => p ≠ q
        | FsOp.writeChunk p _ => p ≠ q
        | FsOp.rename s d => s ≠ q ∧ d ≠ q) :=
      fun o ho => hall o (List.mem_cons_of_mem _ ho)
    simp only [runOps, List.foldl_cons]
    have h2 : List.foldl applyOp (applyOp st op) t q = (applyOp st op) q :=
      ih (applyOp st op) q ht
    rw [h2]
    cases op with
    | openTrunc p => simp only at hop; simp [applyOp, Ne.symm hop]
    | writeChunk p d => simp only at hop; simp [applyOp, Ne.symm hop]
    | rename s d =>
      simp only at hop
      simp [applyOp, Ne.symm hop.1, Ne.symm hop.2]

/-- Running the chunk writes of one file appends their concatenation
to its content. -/
theorem runOps_writeChunks (p : String) :
    ∀ (chunks : List String) (st : FsState) (s : String), st p = some s →
      runOps st (chunks.map (FsOp.writeChunk p)) p = some (s ++ concatAll chunks) := by
  intro chunks
  induction chunks with
  | nil =>
    intro st s hst
    simpa [runOps, concatAll, String.append_empty] using hst
  | cons c t ih =>
    intro st s hst
    simp only [List.map_cons, runOps, List.foldl_cons]
    have h2 : (applyOp st (FsOp.writeChunk p c)) p = some (s ++ c) := by
      simp [applyOp, hst]
    have h3 := ih (applyOp st (FsOp.writeChunk p c)) (s ++ c) h2
    simp only [runOps] at h3
    rw [h3]
    rw [show concatAll (c :: t) = c ++ concatAll t from rfl, ← String.append_assoc]

/-- C6 amended: the countries.json write path of scrape_Countries.py
is atomic in the claimed sense: at every point of its operation
sequence the destination path holds either its previous content or
the complete new document (the temporary path absorbs all partial
states, and the final rename installs the full document). -/
theorem C6_amended_save_atomic (path doc : String) (chunks : List String) (st : FsState)
    (hj : concatAll chunks = doc) :
    specAtomic path (save_countries_ops path chunks) st doc := by
  intro pre hpre
  rw [save_countries_ops] at hpre
  rcases List.prefix_cons_iff.mp hpre with h0 | ⟨pre', hpre', htail⟩
  · subst h0
    left
    rfl
  · subst hpre'
    rcases List.prefix_concat_iff.mp htail with hfull | hmid
    · subst hfull
      right
      simp only [runOps, List.foldl_cons, List.foldl_append]
      have hst1 : (applyOp st (FsOp.openTrunc (path ++ ".tmp"))) (path ++ ".tmp") = some "" := by
        simp [applyOp]
      have h2 := runOps_writeChunks (path ++ ".tmp") chunks
        (applyOp st (FsOp.openTrunc (path ++ ".tmp"))) "" hst1
      simp only [runOps] at h2
      set X := List.foldl applyOp (applyOp st (FsOp.openTrunc (path ++ ".tmp")))
        (List.map (FsOp.writeChunk (path ++ ".tmp")) chunks) with hX
      show (if path = path then X (path ++ ".tmp")
        else if path = path ++ ".tmp" then none else X path) = some doc
      rw [if_pos rfl, h2, String.empty_append, hj]
    · left
      apply runOps_untouched
      intro op hop
      rcases List.mem_cons.mp hop with h1 | h2
      · subst h1
        exact tmp_ne_path path
      · have h3 := hmid.subset h2
        rcases List.mem_map.mp h3 with ⟨c, _, hc⟩
        subst hc
        exact tmp_ne_path path

/-- C6 witness: atomicity of a concrete one-chunk save. -/
theorem C6_witness_save_atomic :
    concatAll ["D"] = "D" ∧
    specAtomic "c.json" (save_countries_ops "c.json" ["D"]) (fun _ => none) "D" :=
  ⟨rfl, C6_amended_save_atomic "c.json" "D" ["D"] (fun _ => none) rfl⟩

/-- Previous state of the output file before the main.py final write. -/
def stC6 : FsState := fun p => if p = "out.json" then some "OLD" else none

/-- C6 counterexample: the final output write of main.py opens the
destination path directly with mode w, so immediately after the
truncating open the canonical output path holds an empty file, which
is neither the previous document nor the new one: the write is not
atomic. -/
theorem C6_counterexample_direct_write :
    ¬ specAtomic "out.json" (main_write_ops "out.json" ["NEW"]) stC6 "NEW" := by
  intro h
  have h2 := h [FsOp.openTrunc "out.json"] ⟨[FsOp.writeChunk "out.json" "NEW"], rfl⟩
  exact absurd h2 (by decide)

end Booking
